import Mathlib

/-
Verification of the liquid pattern-engine extension (patternlab-node liquid
engine, two variants: the rich engine in the unnamed source file, called
Variant A below, and the reduced engine in lib/engine_liquid.js, Variant B).

Conventions of the shallow embedding:
  - Template text and argument strings are modelled as List Char where the
    code performs positional string surgery (regex matching, slice, replace,
    indexOf, split), and as String where text is only concatenated.
  - liquidjs tokens are modelled by the Token structure: the discriminant
    token.name and the raw text token.getText().
  - JSON values loaded from sidecar files are modelled by the Json inductive;
    JavaScript objects are association lists in literal key order, a spread
    followed by an assignment is setKey (replace in place or append), and
    property read is getKey (first match, keys produced by JSON.parse are
    unique).
  - Math.random().toString(36).substr(2, 9) is modelled by an explicit
    stream of draws ids : Nat -> String, in evaluation order.
  - Throwing JavaScript code is modelled with Except String; external
    collaborators (the underlying liquidjs render, JSON.parse, the sass
    compiler, the filesystem) are passed in as function arguments or as the
    already-obtained result of the call.
-/

namespace LiquidEngine

/-- A liquidjs token: its tag-name discriminant and its raw text form,
the value of token.getText(). -/
structure Token where
  tname : String
  ttext : String
deriving DecidableEq

/-- The block scanner shared by form, paginate, schema, stylesheet and
javascript: the parseStream loop pulls tokens one by one; a token whose name
equals the end-tag name stops the stream and is consumed without being
buffered; any other token is pushed onto this.tokens; if the stream ends
first, the code throws the error string built from the opening tag's raw
text. The result is the buffered tokens together with the unconsumed
remainder of the stream. -/
def scanBlock (endName tagText : String) : List Token → Except String (List Token × List Token)
  | [] => .error ("tag " ++ tagText ++ " not closed")
  | t :: ts =>
    if t.tname = endName then .ok ([], ts)
    else
      match scanBlock endName tagText ts with
      | .ok pr => .ok (t :: pr.1, pr.2)
      | .error e => .error e

/-- Reconstitution of buffered tokens: this.tokens.map(token => token.getText()).join(''). -/
def tokensText (ts : List Token) : String :=
  String.join (ts.map Token.ttext)

/-- The literal opening of the schema script wrapper emitted by the schema
tag in Variant A. -/
def schemaOpenStr : String := "<script id=\"schema\" type=\"application/json\">"

/-- Variant A schema.render: wrap the verbatim buffered text (the render
routine is synchronous and never re-renders the content against the
context). -/
def schema_render (ts : List Token) : String :=
  schemaOpenStr ++ tokensText ts ++ "</script>"

/-- Variant B schema.render: the body of the render routine in
lib/engine_liquid.js is exactly return null, whatever was buffered. -/
def schema_render_B (_ts : List Token) : Option String :=
  none

/-- Boolean test that pat is a leading run of s (character by character). -/
def hasLead : List Char → List Char → Bool
  | [], _ => true
  | _ :: _, [] => false
  | p :: ps, c :: cs => p = c && hasLead ps cs

/-- First occurrence of the literal pat inside s, returning the part before
the occurrence and the part after it; none when pat does not occur. This is
the search performed by JavaScript String.prototype.replace with a string
pattern and by a regex made of one literal. -/
def splitFirst (pat : List Char) : List Char → Option (List Char × List Char)
  | [] => if pat = [] then some ([], []) else none
  | c :: cs =>
    if hasLead pat (c :: cs) then some ([], (c :: cs).drop pat.length)
    else (splitFirst pat cs).map (fun pr => (c :: pr.1, pr.2))

/-- Last occurrence of the literal pat inside s (the occurrence a greedy
dot-all capture group extends to), via the first occurrence in the
reversed string. -/
def splitLast (pat s : List Char) : Option (List Char × List Char) :=
  match splitFirst pat.reverse s.reverse with
  | none => none
  | some pr => some (pr.2.reverse, pr.1.reverse)

/-- JavaScript s.replace(pat, repl) with a string pattern: replace the first
occurrence only, return s unchanged when pat does not occur. -/
def replaceFirst (pat repl s : List Char) : List Char :=
  match splitFirst pat s with
  | none => s
  | some pr => pr.1 ++ repl ++ pr.2

/-- Index of the first occurrence of character c in s, none when absent
(JavaScript indexOf returns -1 there; the call sites only compare the index
with 0, so the none case carries the -1 behaviour). -/
def firstIdx (c : Char) : List Char → Option Nat
  | [] => none
  | x :: xs => if x = c then some 0 else (firstIdx c xs).map (· + 1)

/-- Boolean character membership used to phrase the quoted-argument regex. -/
def hasChar (c : Char) : List Char → Bool
  | [] => false
  | x :: xs => x = c || hasChar c xs

/-- Opening literal of the schema-extraction regex in Variant A
section.render. -/
def schemaOpenL : List Char := schemaOpenStr.toList

/-- Closing literal of the schema-extraction regex. -/
def schemaCloseL : List Char := "</script>".toList

/-- The match output.match(/<script id="schema" type="application\/json">(.*)<\/script>/s):
the regex starts at the first occurrence of the opening literal and the
greedy dot-all group runs to the last occurrence of the closing literal
after it; the returned value is the capture group. -/
def schemaMatch (s : List Char) : Option (List Char) :=
  match splitFirst schemaOpenL s with
  | none => none
  | some pr =>
    match splitLast schemaCloseL pr.2 with
    | none => none
    | some qr => some qr.1

/-- Word characters of the slug regex [^\wÀ-ɏ]: ASCII letters,
digits, underscore, and the explicit U+00C0 to U+024F range. -/
def isWordChar (c : Char) : Bool :=
  c.isAlpha || c.isDigit || c = '_' || (0xC0 ≤ c.toNat && c.toNat ≤ 0x24F)

/-- Replacement of every maximal run of non-word characters by a single
hyphen (the g-flagged first replace of the slug computation): a non-word
character is dropped unless it ends its run, where it becomes the run's
single hyphen. -/
def collapseRuns : List Char → List Char
  | [] => []
  | c :: cs =>
    if isWordChar c then c :: collapseRuns cs
    else
      match cs with
      | [] => ['-']
      | c2 :: _ => if isWordChar c2 then '-' :: collapseRuns cs else collapseRuns cs

/-- The second slug replace /^-+|-+$/g: strip leading and trailing hyphen
runs. -/
def trimDashes (s : List Char) : List Char :=
  ((s.dropWhile (fun c => c = '-')).reverse.dropWhile (fun c => c = '-')).reverse

/-- The slug computation shared by Variant A section.render and the handle
filter: lowercase, collapse non-word runs to hyphens, trim hyphens. Char
lowercasing is the ASCII mapping; the full Unicode lowercase table of
JavaScript is outside the claims exercised here. -/
def slugify (s : List Char) : List Char :=
  trimDashes (collapseRuns (s.map Char.toLower))

/-- The two fields Variant A section.render reads off the parsed schema
JSON: schema.name and the optional schema.class. -/
structure SchemaInfo where
  sname : List Char
  sclass : Option (List Char)

/-- Class attribute suffix: a space and the class when present. -/
def classSuffix : Option (List Char) → List Char
  | some c => ' ' :: c
  | none => []

/-- Variant A section.render after the external variant render produced
output: match the schema regex; the code then evaluates
schemaRegex && schemaRegex[1] ? JSON.parse(schemaRegex[1]) : null, so both a
missing match and an empty capture leave schema null, and the subsequent
schema.name dereference throws a TypeError (modelled as the error below).
JSON.parse is the external parseJson argument (it may itself throw). On
success the output is wrapped in the shopify-section div built from the
slug of schema.name and the optional schema.class. -/
def section_render_A (parseJson : List Char → Except String SchemaInfo)
    (output : List Char) : Except String (List Char) :=
  match schemaMatch output with
  | none => .error "TypeError: cannot read property name of null"
  | some cap =>
    if cap = [] then .error "TypeError: cannot read property name of null"
    else
      match parseJson cap with
      | .error e => .error e
      | .ok info =>
        .ok ("<div id=\"shopify-section-".toList ++ slugify info.sname
          ++ "\" class=\"shopify-section".toList ++ classSuffix info.sclass
          ++ "\">".toList ++ output ++ "</div>".toList)

/-- JSON values, as produced by JSON.parse on a sidecar file. Objects are
association lists in key order. -/
inductive Json where
  | jnull
  | jbool (b : Bool)
  | jnum (n : Int)
  | jstr (s : String)
  | jarr (items : List Json)
  | jobj (fields : List (String × Json))

/-- Property read on an object: keys from JSON.parse are unique, so the
first match is the property. -/
def getKey (k : String) : List (String × Json) → Option Json
  | [] => none
  | (k2, v) :: rest => if k2 = k then some v else getKey k rest

/-- Effect of a spread followed by an assignment of key k: the existing key
keeps its position with the new value, a fresh key is appended. -/
def setKey (k : String) (v : Json) : List (String × Json) → List (String × Json)
  | [] => [(k, v)]
  | (k2, v2) :: rest => if k2 = k then (k, v) :: rest else (k2, v2) :: setKey k v rest

/-- JavaScript truthiness of a JSON value. -/
def jsonTruthy : Json → Bool
  | .jnull => false
  | .jbool b => b
  | .jnum n => n ≠ 0
  | .jstr s => s ≠ ""
  | .jarr _ => true
  | .jobj _ => true

/-- One stamped block: { ...block, id }. Spreading a JSON object keeps its
fields and the id assignment overwrites or appends; spreading null, a
boolean or a number contributes no fields. (A string entry would spread to
character-index fields in JavaScript; blocks entries are objects per the
sidecar format and the string case is not modelled.) -/
def stampBlock (idStr : String) : Json → Json
  | .jobj bf => .jobj (setKey "id" (.jstr idStr) bf)
  | _ => .jobj [("id", .jstr idStr)]

/-- Blocks mapped in order, entry j drawing ids (i + j) from the random
stream. -/
def stampBlocks (ids : Nat → String) : Nat → List Json → List Json
  | _, [] => []
  | i, b :: bs => stampBlock (ids i) b :: stampBlocks ids (i + 1) bs

/-- Value assigned to section.blocks by the stamping literal:
section.blocks ? section.blocks.map(block => ({...block, id})) : []. A falsy
or absent blocks becomes []; a truthy array is mapped; a truthy non-array
has no .map and the code throws a TypeError. -/
def sectionBlocksVal (ids : Nat → String) (sf : List (String × Json)) : Except String Json :=
  match getKey "blocks" sf with
  | none => .ok (.jarr [])
  | some v =>
    if jsonTruthy v then
      match v with
      | .jarr bs => .ok (.jarr (stampBlocks ids 1 bs))
      | _ => .error "TypeError: blocks.map is not a function"
    else .ok (.jarr [])

/-- The stamping literal { ...section, id, blocks }: the id draw happens
first (ids 0), then the blocks map draws ids 1, 2, and so on. -/
def stampSection (ids : Nat → String) (sf : List (String × Json)) :
    Except String (List (String × Json)) :=
  match sectionBlocksVal ids sf with
  | .error e => .error e
  | .ok bv => .ok (setKey "blocks" bv (setKey "id" (.jstr (ids 0)) sf))

/-- The sidecar handling of section.parse (identical in both variants): no
sidecar file found leaves this.sectionData = {}; a loaded sidecar whose
section field is an object is stamped; a sidecar without a truthy section
field passes through unchanged. (A truthy non-object section field, outside
the sidecar format, would be spread field-wise by JavaScript and is not
modelled; the claims' precondition is a section object.) -/
def section_parse (ids : Nat → String) : Option Json → Except String Json
  | none => .ok (.jobj [])
  | some d =>
    match d with
    | .jobj fields =>
      match getKey "section" fields with
      | some (.jobj sf) =>
        match stampSection ids sf with
        | .error e => .error e
        | .ok sf2 => .ok (.jobj (setKey "section" (.jobj sf2) fields))
      | _ => .ok d
    | other => .ok other

/-- Parse-time state of one section tag occurrence: this.template and
this.sectionData as left by section.parse. -/
structure SectionState where
  template : List Char
  sectionData : Json

/-- Variant A section.render as invoked on a parsed tag instance, with the
global random stream threaded through explicitly: the render body contains
no Math.random call (identifiers were stamped at parse time), so the stream
passes through unconsumed and the output depends only on the parse-time
state. renderFile is the external this.liquid.renderFile, applied to the
variant file name and this.sectionData. -/
def section_render_A_rng (parseJson : List Char → Except String SchemaInfo)
    (renderFile : List Char → Json → List Char) (st : SectionState)
    (rng : Nat → String) : Except String (List Char) × (Nat → String) :=
  (section_render_A parseJson (renderFile st.template st.sectionData), rng)

/-- Left alternative of /^'[^']*'|"[^"]*"$/ : anchored only at the start,
it matches exactly when the string begins with a single quote and another
single quote occurs later. -/
def startsSQ : List Char → Bool
  | [] => false
  | c :: t => c = '\'' && hasChar '\'' t

/-- Right alternative of the quoted regex: anchored only at the end, it
matches exactly when the string ends with a double quote preceded somewhere
by another double quote. -/
def endsDQ (s : List Char) : Bool :=
  match s.reverse with
  | [] => false
  | c :: t => c = '"' && hasChar '"' t

/-- Declarative reading of the left regex alternative: the argument begins
with a complete single-quoted segment. -/
def beginsSQProp (s : List Char) : Prop :=
  ∃ mid rest, (∀ c ∈ mid, c ≠ '\'') ∧ s = '\'' :: (mid ++ '\'' :: rest)

/-- Declarative reading of the right regex alternative: the argument ends
with a complete double-quoted segment. -/
def endsDQProp (s : List Char) : Prop :=
  ∃ first mid, (∀ c ∈ mid, c ≠ '"') ∧ s = first ++ '"' :: (mid ++ ['"'])

/-- The full quoted-argument test quoted.exec(args), shared by section.parse
(both variants) and stylesheet.render. -/
def quotedTest (s : List Char) : Bool :=
  startsSQ s || endsDQ s

/-- JavaScript args.slice(1, -1): drop the first and the last character. -/
def sliceEnds (s : List Char) : List Char :=
  (s.drop 1).dropLast

/-- Name extraction at the quoted call sites: when the quoted test accepts,
the inner name is args.slice(1, -1); otherwise the assignment is skipped
(this.template stays undefined, the stylesheet processor key stays empty). -/
def quotedInner (args : List Char) : Option (List Char) :=
  if quotedTest args then some (sliceEnds args) else none

/-- Property names the plain object literal processors inherits from
Object.prototype in Node: reading processors[key] for any of them walks the
prototype chain and yields a truthy value (a builtin function, or the
prototype object itself through the accessor proto property), so the falsy
guard of stylesheet.render does not fire on these keys. -/
def objectProtoProps : List String :=
  ["constructor", "hasOwnProperty", "isPrototypeOf", "propertyIsEnumerable",
    "toLocaleString", "toString", "valueOf", "__proto__",
    "__defineGetter__", "__defineSetter__", "__lookupGetter__", "__lookupSetter__"]

/-- Result of the JavaScript property read processors[key]: an own entry of
the literal (a pipeline function), a truthy value inherited from
Object.prototype, or undefined. -/
inductive PipelineHit where
  | pipeline (p : String → Except String String)
  | protoProp (name : String)
  | missing

/-- Processor lookup of stylesheet.render, as JavaScript property access on
the object literal: the own keys are the empty key (identity pipeline) and
sass and scss (the external sass compiler pipeline sassP); any other key
falls through to the prototype chain, where the Object.prototype member
names still produce a truthy value; only the remaining keys read as
undefined. -/
def stylesheet_lookup (sassP : String → Except String String) (key : String) :
    PipelineHit :=
  if key = "" then .pipeline (fun x => .ok x)
  else if key = "sass" then .pipeline sassP
  else if key = "scss" then .pipeline sassP
  else if key ∈ objectProtoProps then .protoProp key
  else .missing

/-- Behavior of calling the inherited Object.prototype member as p(text),
with an undefined this (the module is strict): the constructor member is
Object, whose call wraps the string and stringifies back to the text in the
template literal; isPrototypeOf of a non-object argument is false;
Object.prototype.toString of an undefined this is the undefined object tag;
every other member (and the non-callable prototype object read through the
proto accessor) throws a TypeError — never the processor-naming error. -/
def protoPropCall (name text : String) : Except String String :=
  if name = "constructor" then .ok text
  else if name = "isPrototypeOf" then .ok "false"
  else if name = "toString" then .ok "[object Undefined]"
  else .error "TypeError: inherited Object.prototype member cannot run as a pipeline"

/-- Tail of stylesheet.render once the processor key is resolved and the
buffered text reconstituted: read processors[key]; a falsy read (undefined)
throws the descriptive error naming the key; a pipeline function runs
(possibly failing) and its output is wrapped in a style element; a truthy
inherited Object.prototype member escapes the guard and is invoked as the
pipeline. -/
def stylesheet_render_with (sassP : String → Except String String)
    (key text : String) : Except String String :=
  match stylesheet_lookup sassP key with
  | .missing => .error ("processor for " ++ key ++ " not found")
  | .pipeline p =>
    match p text with
    | .error e => .error e
    | .ok css => .ok ("<style>" ++ css ++ "</style>")
  | .protoProp name =>
    match protoPropCall name text with
    | .error e => .error e
    | .ok css => .ok ("<style>" ++ css ++ "</style>")

/-- Resolution of the stylesheet processor key: a quoted argument is sliced
and rendered against the context (the external renderArg), an unquoted
argument leaves the key empty. -/
def resolveProcessorKey (renderArg : List Char → String) (args : List Char) : String :=
  match quotedInner args with
  | some t => renderArg t
  | none => ""

/-- Leading-literal strip: drop pat when it leads s, else leave s. -/
def dropLead (pat s : List Char) : List Char :=
  if hasLead pat s then s.drop pat.length else s

/-- The four marker replaces of findPartial, in source order: the first
occurrence of each marker string is removed. -/
def stripMarkersReplace (s : List Char) : List Char :=
  replaceFirst "\x7d\x7d".toList []
    (replaceFirst "\x7b\x7b>".toList []
      (replaceFirst " \x7d\x7d".toList []
        (replaceFirst "\x7b\x7b> ".toList [] s)))

/-- The parameter-list cut of findPartial: when indexOf of the opening
parenthesis is strictly positive, keep the part before it (an index of 0 or
a missing parenthesis, JavaScript -1, leaves the string whole). -/
def parenCut (s : List Char) : List Char :=
  match firstIdx '(' s with
  | some i => if 0 < i then s.take i else s
  | none => s

/-- The style-modifier cut split(':')[0]: the part before the first colon. -/
def colonCut (s : List Char) : List Char :=
  s.takeWhile (fun c => c ≠ ':')

/-- The string-replacement name extractor findPartial: strip the first
occurrence of each of the four marker strings, cut from the first opening
parenthesis when its index is positive, then keep the part before the first
colon. -/
def findPartial (s : List Char) : List Char :=
  colonCut (parenCut (stripMarkersReplace s))

/-- Marker stripping as the spec describes it for the pattern-based
extractor: drop the leading include marker with its following spaces and
the trailing end marker with its preceding spaces. -/
def stripMarkersDrop (s : List Char) : List Char :=
  ((dropLead "\x7d\x7d".toList
      (((dropLead "\x7b\x7b>".toList s).dropWhile (fun c => c = ' ')).reverse)).dropWhile
    (fun c => c = ' ')).reverse

/-- Modelled from the spec: the pattern partialRE used by findPartial_new
lives in util_liquid.js, which is not among the sources; per the spec the
pattern-based extractor strips the include and end markers, strips anything
from the first opening parenthesis onward (parameter list), then strips
anything from the first colon onward (style modifier), yielding the bare
reference name. -/
def findPartial_new (s : List Char) : List Char :=
  colonCut ((stripMarkersDrop s).takeWhile (fun c => c ≠ '('))

/-- A well-formed partial reference string: include marker, name, optional
colon style modifier, optional parenthesized parameter list, end marker. -/
def mkPartialRef (nm : List Char) (md pr : Option (List Char)) : List Char :=
  "\x7b\x7b> ".toList ++ nm
    ++ (match md with | some m => ':' :: m | none => [])
    ++ (match pr with | some p => '(' :: (p ++ [')']) | none => [])
    ++ " \x7d\x7d".toList

/-- Characters that may appear in the name, modifier and parameter segments
of a well-formed reference for the extraction claims: none of the marker or
delimiter characters. -/
def plainChar (c : Char) : Prop :=
  c ≠ ' ' ∧ c ≠ '\x7b' ∧ c ≠ '\x7d' ∧ c ≠ '(' ∧ c ≠ ')'

instance (c : Char) : Decidable (plainChar c) := by
  unfold plainChar
  infer_instance

/-- Variant B renderPattern: the engine.parseAndRender promise either
fulfills with the html (returned to the caller) or rejects, in which case
the single catch handler logs the failure and the caller's promise resolves
with undefined. -/
def renderPattern_B (engineResult : Except String String) : Option String :=
  match engineResult with
  | .ok html => some html
  | .error _ => none

/-- Variant A renderPattern: before the promise chain the global data file
is read and parsed synchronously; a failure there is thrown to the caller
uncaught. Only then does the engine render run under the catch handler,
whose rejection is logged and turned into an undefined result. -/
def renderPattern_A (globalDataRead : Except String Json)
    (engineRun : Json → Except String String) : Except String (Option String) :=
  match globalDataRead with
  | .error e => .error e
  | .ok gd =>
    .ok (match engineRun gd with
      | .ok html => some html
      | .error _ => none)

/-- Fields of the stamped section object: the spread of the loaded section
followed by the id assignment (drawing ids 0) and the blocks assignment. -/
def stampedSectionFields (ids : Nat → String) (sf : List (String × Json)) (bv : Json) :
    List (String × Json) :=
  setKey "blocks" bv (setKey "id" (.jstr (ids 0)) sf)

/-- Identifier carried by one blocks entry of the section metadata. -/
def blockIdOf : Json → Option Json
  | .jobj bf => getKey "id" bf
  | _ => none

/-- Arbitrary field of one blocks entry of the section metadata. -/
def blockFieldOf (k : String) : Json → Option Json
  | .jobj bf => getKey k bf
  | _ => none

/-- Identifier of the blocks entry at index j of a stamped blocks list. -/
def blockIdAt (l : List Json) (j : Nat) : Option Json :=
  match l[j]? with
  | some b => blockIdOf b
  | none => none

/-- Field k of the blocks entry at index j of a stamped blocks list. -/
def blockFieldAt (l : List Json) (j : Nat) (k : String) : Option Json :=
  match l[j]? with
  | some b => blockFieldOf k b
  | none => none

/-- Identifier stamped onto the section object of a metadata value. -/
def sectionIdOf : Json → Option Json
  | .jobj fs =>
    match getKey "section" fs with
    | some (.jobj sf) => getKey "id" sf
    | _ => none
  | _ => none

/-- Concrete external JSON.parse used in the identifier-reuse scenario. -/
def cexParseJson : List Char → Except String SchemaInfo :=
  fun _ => .ok ⟨"t".toList, none⟩

/-- Concrete external variant renderer used in the identifier-reuse
scenario: it emits a schema block followed by the section identifier it was
handed in its data context, so the identifier is visible in the output. -/
def cexRenderFile : List Char → Json → List Char :=
  fun _ d =>
    schemaOpenL ++ "x".toList ++ schemaCloseL
      ++ (match sectionIdOf d with
        | some (.jstr i) => i.toList
        | _ => [])

/-- Concrete random stream for the identifier-reuse scenario. -/
def cexIds : Nat → String :=
  fun n => "r" ++ toString n

/-- Concrete sidecar metadata with a section object and one block. -/
def cexSidecar : Json :=
  Json.jobj [("section", Json.jobj [("type", Json.jstr "hero"),
    ("blocks", Json.jarr [Json.jobj []])])]

/-- Parse-time state of the section tag occurrence in the identifier-reuse
scenario, as left by section.parse on the concrete sidecar. -/
def cexState : SectionState :=
  ⟨"hero".toList, (section_parse cexIds (some cexSidecar)).toOption.getD (Json.jobj [])⟩

/-- JavaScript values reaching the money filter. -/
inductive JSVal where
  | vnull
  | vundef
  | vnum (n : Int)
  | vstr (s : String)
  | vbool (b : Bool)
deriving DecidableEq

/-- JavaScript truthiness of a filter input. -/
def jsTruthy : JSVal → Bool
  | .vnull => false
  | .vundef => false
  | .vnum n => n ≠ 0
  | .vstr s => s ≠ ""
  | .vbool b => b

/-- Decimal string of n divided by 100, as JavaScript prints that quotient
for integer n: sign, integer part, then up to two fractional digits with a
trailing zero trimmed. -/
def centsToString (n : Int) : String :=
  let m := n.natAbs
  let sign := if n < 0 then "-" else ""
  let ip := m / 100
  let fr := m % 100
  if fr = 0 then sign ++ toString ip
  else if fr % 10 = 0 then sign ++ toString ip ++ "." ++ toString (fr / 10)
  else if fr < 10 then sign ++ toString ip ++ ".0" ++ toString fr
  else sign ++ toString ip ++ "." ++ toString fr

/-- The money filter value => value && format: a falsy input short-circuits
and is returned unchanged; a truthy input is pushed through
parseFloat(value) / 100 and prefixed with the currency symbol. Numbers are
modelled as integers; parseFloat on a truthy string is the external
parseFloatStr (none standing for NaN), and parseFloat of true is NaN. -/
def money (parseFloatStr : String → Option Int) (v : JSVal) : JSVal :=
  if jsTruthy v then
    match v with
    | .vnum n => .vstr ("$" ++ centsToString n)
    | .vstr s =>
      .vstr ("$" ++ (match parseFloatStr s with
        | some n => centsToString n
        | none => "NaN"))
    | _ => .vstr "$NaN"
  else v

/-! Helper lemmas about the string-scanning primitives. -/

theorem hasChar_iff (c : Char) (l : List Char) : hasChar c l = true ↔ c ∈ l := by
  induction l with
  | nil => simp [hasChar]
  | cons x xs ih =>
    simp [hasChar, ih, Bool.or_eq_true, decide_eq_true_eq]
    constructor
    · rintro (h | h)
      · exact Or.inl h.symm
      · exact Or.inr h
    · rintro (h | h)
      · exact Or.inl h.symm
      · exact Or.inr h

theorem hasLead_iff (pat s : List Char) : hasLead pat s = true ↔ ∃ t, s = pat ++ t := by
  induction pat generalizing s with
  | nil => simp [hasLead]
  | cons p ps ih =>
    cases s with
    | nil =>
      simp [hasLead]
    | cons c cs =>
      simp only [hasLead, Bool.and_eq_true, decide_eq_true_eq, ih, List.cons_append,
        List.cons.injEq]
      constructor
      · rintro ⟨hpc, t, ht⟩
        exact ⟨t, hpc.symm, ht⟩
      · rintro ⟨t, hcp, ht⟩
        exact ⟨hcp.symm, t, ht⟩

theorem hasLead_append_self (pat t : List Char) : hasLead pat (pat ++ t) = true :=
  (hasLead_iff pat (pat ++ t)).mpr ⟨t, rfl⟩

theorem splitFirst_eq (pat : List Char) (s a b : List Char)
    (h : splitFirst pat s = some (a, b)) : s = a ++ pat ++ b := by
  induction s generalizing a b with
  | nil =>
    by_cases hp : pat = []
    · simp only [splitFirst, hp, if_true, Option.some.injEq, Prod.mk.injEq] at h
      obtain ⟨ha, hb⟩ := h
      simp [hp, ← ha, ← hb]
    · simp [splitFirst, hp] at h
  | cons c cs ih =>
    by_cases hl : hasLead pat (c :: cs) = true
    · simp only [splitFirst, hl, if_true, Option.some.injEq, Prod.mk.injEq] at h
      obtain ⟨t, ht⟩ := (hasLead_iff pat (c :: cs)).mp hl
      have hdrop : (c :: cs).drop pat.length = t := by
        rw [ht]; exact List.drop_left pat t
      obtain ⟨ha, hb⟩ := h
      rw [← ha, ← hb, hdrop, ht]
      simp
    · simp only [splitFirst, hl, if_false] at h
      cases hsp : splitFirst pat cs with
      | none => rw [hsp] at h; simp at h
      | some pr =>
        rw [hsp] at h
        simp only [Option.map_some', Option.some.injEq, Prod.mk.injEq] at h
        have hrec := ih pr.1 pr.2 (by rw [hsp])
        obtain ⟨rfl, rfl⟩ := h
        simp [hrec]

theorem splitFirst_append_self (pat t : List Char) : splitFirst pat (pat ++ t) = some ([], t) := by
  cases hpt : pat ++ t with
  | nil =>
    have hp : pat = [] := by
      cases pat with
      | nil => rfl
      | cons x xs => simp at hpt
    have ht : t = [] := by
      rw [hp] at hpt; simpa using hpt
    simp [splitFirst, hp, ht]
  | cons c cs =>
    have hl : hasLead pat (c :: cs) = true := by
      rw [← hpt]; exact hasLead_append_self pat t
    have hdrop : (c :: cs).drop pat.length = t := by
      rw [← hpt]; exact List.drop_left pat t
    rw [← hpt]
    rw [hpt]
    simp only [splitFirst, hl, if_true, hdrop]

theorem splitFirst_skip (h : Char) (pt body t : List Char)
    (hb : ∀ c ∈ body, c ≠ h) :
    splitFirst (h :: pt) (body ++ t)
      = (splitFirst (h :: pt) t).map (fun pr => (body ++ pr.1, pr.2)) := by
  induction body with
  | nil =>
    simp only [List.nil_append]
    cases hsp : splitFirst (h :: pt) t with
    | none => rfl
    | some pr => rfl
  | cons c bs ih =>
    have hc : c ≠ h := hb c (by simp)
    have hl : hasLead (h :: pt) (c :: (bs ++ t)) = false := by
      simp only [hasLead, Bool.and_eq_false_iff, decide_eq_false_iff_not]
      exact Or.inl (fun hhc => hc hhc.symm)
    have hbody : (c :: bs) ++ t = c :: (bs ++ t) := rfl
    rw [hbody]
    show (if hasLead (h :: pt) (c :: (bs ++ t)) = true
        then some (([] : List Char), (c :: (bs ++ t)).drop (h :: pt).length)
        else (splitFirst (h :: pt) (bs ++ t)).map (fun pr => (c :: pr.1, pr.2)))
      = (splitFirst (h :: pt) t).map (fun pr => ((c :: bs) ++ pr.1, pr.2))
    rw [hl]
    simp only [Bool.false_eq_true, if_false]
    rw [ih (fun x hx => hb x (by simp [hx]))]
    cases hsp : splitFirst (h :: pt) t with
    | none => rfl
    | some pr => rfl

theorem splitFirst_none_of_char (c0 : Char) (pat s : List Char)
    (hc : c0 ∈ pat) (hs : ∀ x ∈ s, x ≠ c0) : splitFirst pat s = none := by
  cases hsp : splitFirst pat s with
  | none => rfl
  | some pr =>
    have hdec := splitFirst_eq pat s pr.1 pr.2 (by rw [hsp])
    have : c0 ∈ s := by
      rw [hdec]; simp [hc]
    exact absurd rfl (hs c0 this)

theorem splitLast_eq (pat s a b : List Char)
    (h : splitLast pat s = some (a, b)) : s = a ++ pat ++ b := by
  unfold splitLast at h
  cases hsp : splitFirst pat.reverse s.reverse with
  | none => rw [hsp] at h; exact absurd h (by simp)
  | some pr =>
    rw [hsp] at h
    injection h with h1
    injection h1 with ha hb
    have hdec := splitFirst_eq pat.reverse s.reverse pr.1 pr.2 (by rw [hsp])
    have : s.reverse.reverse = (pr.1 ++ pat.reverse ++ pr.2).reverse := by rw [hdec]
    rw [List.reverse_reverse] at this
    rw [this, ← ha, ← hb]
    simp

theorem firstIdx_none_of (c : Char) (s : List Char) (hs : ∀ x ∈ s, x ≠ c) :
    firstIdx c s = none := by
  induction s with
  | nil => rfl
  | cons x xs ih =>
    have hx : x ≠ c := hs x (by simp)
    simp only [firstIdx, hx, if_false]
    rw [ih (fun y hy => hs y (by simp [hy]))]
    rfl

theorem firstIdx_append_left (c : Char) (a rest : List Char) (ha : ∀ x ∈ a, x ≠ c) :
    firstIdx c (a ++ c :: rest) = some a.length := by
  induction a with
  | nil => simp [firstIdx]
  | cons x xs ih =>
    have hx : x ≠ c := ha x (by simp)
    have hxs : (x :: xs) ++ c :: rest = x :: (xs ++ c :: rest) := rfl
    rw [hxs]
    show (if x = c then some 0 else (firstIdx c (xs ++ c :: rest)).map (· + 1))
      = some (x :: xs).length
    rw [if_neg hx, ih (fun y hy => ha y (by simp [hy]))]
    rfl

theorem takeWhile_append_of_all (p : Char → Bool) (a b : List Char)
    (ha : ∀ x ∈ a, p x = true) :
    (a ++ b).takeWhile p = a ++ b.takeWhile p := by
  induction a with
  | nil => simp
  | cons x xs ih =>
    have hx : p x = true := ha x (by simp)
    simp only [List.cons_append, List.takeWhile_cons, hx, if_true]
    rw [ih (fun y hy => ha y (by simp [hy]))]

theorem takeWhile_all (p : Char → Bool) (a : List Char) (ha : ∀ x ∈ a, p x = true) :
    a.takeWhile p = a := by
  have := takeWhile_append_of_all p a [] ha
  simpa using this

theorem dropWhile_eq_self_of_all (p : Char → Bool) (l : List Char)
    (hl : ∀ x ∈ l, p x = false) : l.dropWhile p = l := by
  cases l with
  | nil => rfl
  | cons x xs =>
    have hx : p x = false := hl x (by simp)
    simp [List.dropWhile_cons, hx]

theorem exists_first_split (c : Char) (l : List Char) (h : c ∈ l) :
    ∃ a b, (∀ x ∈ a, x ≠ c) ∧ l = a ++ c :: b := by
  induction l with
  | nil => simp at h
  | cons x xs ih =>
    by_cases hx : x = c
    · exact ⟨[], xs, by simp, by simp [hx]⟩
    · have hmem : c ∈ xs := by
        rcases List.mem_cons.mp h with h1 | h1
        · exact absurd h1.symm hx
        · exact h1
      obtain ⟨a, b, hfree, hdec⟩ := ih hmem
      refine ⟨x :: a, b, ?_, by simp [hdec]⟩
      intro y hy
      rcases List.mem_cons.mp hy with h2 | h2
      · rw [h2]; exact hx
      · exact hfree y h2

/-! Block scanner lemmas. -/

theorem scanBlock_buffers (endName tagText : String) (pre rest : List Token) (endTok : Token)
    (h1 : ∀ t ∈ pre, t.tname ≠ endName) (h2 : endTok.tname = endName) :
    scanBlock endName tagText (pre ++ endTok :: rest) = .ok (pre, rest) := by
  revert h1
  induction pre with
  | nil =>
    intro h1
    simp [scanBlock, h2]
  | cons t ts ih =>
    intro h1
    have ht : ¬(t.tname = endName) := h1 t (by simp)
    rw [List.cons_append]
    simp only [scanBlock]
    rw [if_neg ht, ih (fun x hx => h1 x (by simp [hx]))]

theorem scanBlock_unterminated (endName tagText : String) (s : List Token)
    (hs : ∀ t ∈ s, t.tname ≠ endName) :
    scanBlock endName tagText s = .error ("tag " ++ tagText ++ " not closed") := by
  revert hs
  induction s with
  | nil =>
    intro _
    rfl
  | cons t ts ih =>
    intro hs
    have ht : ¬(t.tname = endName) := hs t (by simp)
    simp only [scanBlock]
    rw [if_neg ht, ih (fun x hx => hs x (by simp [hx]))]

/-- C3: a stream of N tokens not named like the end tag followed by one
token named like the end tag is buffered as exactly those N tokens in
order, with the end token consumed exactly once and not buffered (the
remainder of the stream is empty); a stream containing no token with the
end-tag name fails with the unterminated-block error carrying the opening
tag's literal text. -/
theorem scanBlock_spec (endName tagText : String) (pre : List Token) (endTok : Token)
    (h1 : ∀ t ∈ pre, t.tname ≠ endName) (h2 : endTok.tname = endName) :
    scanBlock endName tagText (pre ++ [endTok]) = .ok (pre, [])
    ∧ ∀ s : List Token, (∀ t ∈ s, t.tname ≠ endName) →
      scanBlock endName tagText s = .error ("tag " ++ tagText ++ " not closed") :=
  ⟨scanBlock_buffers endName tagText pre [] endTok h1 h2,
    fun s hs => scanBlock_unterminated endName tagText s hs⟩

/-- Witness for C3 on a concrete two-token stream. -/
theorem scanBlock_spec_witness :
    scanBlock "endschema" "schema open tag" [⟨"raw", "a"⟩, ⟨"endschema", "end"⟩]
      = .ok ([⟨"raw", "a"⟩], [])
    ∧ scanBlock "endschema" "schema open tag" [⟨"raw", "a"⟩]
      = .error ("tag " ++ "schema open tag" ++ " not closed") := by
  have h := scanBlock_spec "endschema" "schema open tag" [⟨"raw", "a"⟩] ⟨"endschema", "end"⟩
    (by decide) (by decide)
  exact ⟨h.1, h.2 [⟨"raw", "a"⟩] (by decide)⟩

/-- C2 counterexample: in Variant B the schema render routine returns null
for a nonempty buffer, not the buffered text wrapped in the schema script
element. -/
theorem schema_render_B_counterexample :
    schema_render_B [⟨"raw", "json-content"⟩]
      ≠ some (schemaOpenStr ++ "json-content" ++ "</script>") := by
  simp [schema_render_B]

/-- C2 amended: the Variant A schema render returns the buffered tokens'
raw text concatenated verbatim and wrapped in the schema script element;
the Variant B schema render returns null (no output) regardless of the
buffer. -/
theorem schema_render_spec (ts : List Token) :
    schema_render ts = schemaOpenStr ++ tokensText ts ++ "</script>"
    ∧ schema_render_B ts = none :=
  ⟨rfl, rfl⟩

/-- C5 counterexample: the resolved key constructor is neither empty nor
sass nor scss, yet the render does not fail with the error naming it — the
object-literal lookup walks the prototype chain, the inherited Object
constructor is truthy and wraps the buffered text, and the render succeeds
with style-wrapped output. -/
theorem stylesheet_constructor_counterexample :
    stylesheet_render_with (fun s => .ok s) "constructor" "p .a"
      = .ok ("<style>" ++ "p .a" ++ "</style>")
    ∧ stylesheet_render_with (fun s => .ok s) "constructor" "p .a"
      ≠ .error ("processor for " ++ "constructor" ++ " not found") := by
  refine ⟨rfl, ?_⟩
  intro h
  simp [stylesheet_render_with, stylesheet_lookup, objectProtoProps, protoPropCall] at h

/-- C5 amended: the resolved stylesheet processor key selects the identity
pipeline when empty (the buffered text is wrapped unchanged) and the sass
compiler pipeline for the keys sass and scss; every other key that is not a
property name inherited from Object.prototype fails the render with the
error message naming that key; a key colliding with an inherited
Object.prototype member escapes the falsy guard, so the naming error is
never raised for such keys — in particular the key constructor makes the
render succeed, returning the buffered text wrapped in a style element. -/
theorem stylesheet_processor_spec (sassP : String → Except String String) (text key : String)
    (hk : key ≠ "" ∧ key ≠ "sass" ∧ key ≠ "scss") (hp : key ∉ objectProtoProps) :
    stylesheet_render_with sassP "" text = .ok ("<style>" ++ text ++ "</style>")
    ∧ stylesheet_lookup sassP "sass" = .pipeline sassP
    ∧ stylesheet_lookup sassP "scss" = .pipeline sassP
    ∧ stylesheet_render_with sassP key text
      = .error ("processor for " ++ key ++ " not found")
    ∧ stylesheet_render_with sassP "constructor" text
      = .ok ("<style>" ++ text ++ "</style>")
    ∧ (∀ k, k ∈ objectProtoProps →
        stylesheet_render_with sassP k text
          ≠ .error ("processor for " ++ k ++ " not found")) := by
  obtain ⟨hk1, hk2, hk3⟩ := hk
  refine ⟨rfl, rfl, rfl, ?_, rfl, ?_⟩
  · simp [stylesheet_render_with, stylesheet_lookup, hk1, hk2, hk3, hp]
  · intro k hkp
    fin_cases hkp <;>
      intro h <;>
      simp [stylesheet_render_with, stylesheet_lookup, objectProtoProps, protoPropCall] at h

/-- Witness for C5 at the unknown key less and the inherited key toString. -/
theorem stylesheet_processor_spec_witness :
    stylesheet_render_with (fun s => .ok s) "" "p .a" = .ok ("<style>" ++ "p .a" ++ "</style>")
    ∧ stylesheet_render_with (fun s => .ok s) "less" "p .a"
      = .error ("processor for " ++ "less" ++ " not found")
    ∧ stylesheet_render_with (fun s => .ok s) "constructor" "p .a"
      = .ok ("<style>" ++ "p .a" ++ "</style>")
    ∧ stylesheet_render_with (fun s => .ok s) "toString" "p .a"
      ≠ .error ("processor for " ++ "toString" ++ " not found") := by
  have h := stylesheet_processor_spec (fun s => .ok s) "p .a" "less"
    ⟨by decide, by decide, by decide⟩ (by decide)
  exact ⟨h.1, h.2.2.2.1, h.2.2.2.2.1, h.2.2.2.2.2 "toString" (by decide)⟩

/-- C8 counterexample (Variant A): a failure of the synchronous global-data
read at the start of renderPattern is not caught by the render chain's
catch handler and propagates to the caller as a failure, not as an absent
result. -/
theorem renderPattern_A_uncaught_counterexample :
    renderPattern_A (.error "ENOENT: data.json not found") (fun _ => .ok "<p>ok</p>")
      = .error "ENOENT: data.json not found" :=
  rfl

/-- C8 amended: a failure of the engine's parse-and-render is caught once
at the renderPattern entry point in both variants and the caller receives
no result (an absent value); a success passes the html through. In Variant
A this holds once the synchronous global-data read has succeeded (a read
failure propagates uncaught, see the counterexample). -/
theorem renderPattern_catch_spec (e html : String) (gd : Json)
    (engineRun : Json → Except String String) :
    renderPattern_B (.error e) = none
    ∧ renderPattern_B (.ok html) = some html
    ∧ (engineRun gd = .error e → renderPattern_A (.ok gd) engineRun = .ok none)
    ∧ (engineRun gd = .ok html → renderPattern_A (.ok gd) engineRun = .ok (some html)) := by
  refine ⟨rfl, rfl, fun h => ?_, fun h => ?_⟩
  · simp [renderPattern_A, h]
  · simp [renderPattern_A, h]

/-- Witness for C8 with a concrete failing engine run. -/
theorem renderPattern_catch_spec_witness :
    renderPattern_B (.error "boom") = none
    ∧ renderPattern_A (.ok (Json.jobj [])) (fun _ => .error "boom") = .ok none := by
  have h := renderPattern_catch_spec "boom" "h" (Json.jobj []) (fun _ => .error "boom")
  exact ⟨h.1, h.2.2.1 rfl⟩

/-- C10: the money filter returns every falsy input (null, undefined, zero,
the empty string) unchanged without failing — in particular money 0 is 0,
not the dollar string — and maps a truthy number v to the dollar sign
followed by the decimal rendering of v divided by 100. -/
theorem money_spec (pf : String → Option Int) (n : Int) (hn : n ≠ 0) :
    money pf .vnull = .vnull
    ∧ money pf .vundef = .vundef
    ∧ money pf (.vnum 0) = .vnum 0
    ∧ money pf (.vstr "") = .vstr ""
    ∧ money pf (.vnum n) = .vstr ("$" ++ centsToString n)
    ∧ money pf (.vnum 500) = .vstr "$5" := by
  refine ⟨rfl, rfl, rfl, rfl, ?_, rfl⟩
  simp [money, jsTruthy, hn]

/-- Witness for C10 at 500 cents. -/
theorem money_spec_witness :
    money (fun _ => none) .vnull = .vnull
    ∧ money (fun _ => none) (.vnum 0) = .vnum 0
    ∧ money (fun _ => none) (.vnum 500) = .vstr "$5" := by
  have h := money_spec (fun _ => none) 500 (by decide)
  exact ⟨h.1, h.2.2.1, h.2.2.2.2.2⟩

/-! Quoted-argument regex lemmas. -/

theorem startsSQ_iff (s : List Char) : startsSQ s = true ↔ beginsSQProp s := by
  cases s with
  | nil =>
    simp [startsSQ, beginsSQProp]
  | cons c t =>
    simp only [startsSQ, Bool.and_eq_true, decide_eq_true_eq, hasChar_iff]
    constructor
    · rintro ⟨hc, hm⟩
      obtain ⟨a, b, hfree, hdec⟩ := exists_first_split '\'' t hm
      exact ⟨a, b, hfree, by rw [hc, hdec]⟩
    · rintro ⟨mid, rest, hfree, hdec⟩
      injection hdec with h1 h2
      exact ⟨h1, by rw [h2]; simp⟩

theorem endsDQ_iff (s : List Char) : endsDQ s = true ↔ endsDQProp s := by
  constructor
  · intro h
    cases hrev : s.reverse with
    | nil =>
      simp only [endsDQ, hrev] at h
      simp at h
    | cons c t =>
      simp only [endsDQ, hrev, Bool.and_eq_true, decide_eq_true_eq, hasChar_iff] at h
      obtain ⟨hc, hm⟩ := h
      obtain ⟨a, b, hfree, hdec⟩ := exists_first_split '"' t hm
      refine ⟨b.reverse, a.reverse, ?_, ?_⟩
      · intro x hx
        exact hfree x (List.mem_reverse.mp hx)
      · have : s = s.reverse.reverse := (List.reverse_reverse s).symm
        rw [this, hrev, hc, hdec]
        simp
  · rintro ⟨first, mid, hfree, hdec⟩
    have hrev : s.reverse = '"' :: (mid.reverse ++ '"' :: first.reverse) := by
      rw [hdec]
      simp
    simp only [endsDQ, hrev]
    simp [hasChar_iff]

/-- C9: the quoted-argument test of the section and stylesheet tags accepts
exactly the argument strings that begin with a complete single-quoted
segment or end with a complete double-quoted segment, whatever the rest of
the string looks like; whenever it accepts, the extracted name is the whole
argument minus its first and last characters, so the argument consisting of
a quoted foo followed by a space and bar extracts the name foo-quote-space-ba
rather than foo. -/
theorem quoted_arg_spec :
    (∀ s : List Char, quotedTest s = true ↔ (beginsSQProp s ∨ endsDQProp s))
    ∧ (∀ s : List Char, quotedTest s = true → quotedInner s = some (sliceEnds s))
    ∧ quotedInner ("'foo' bar".toList) = some ("foo' ba".toList) := by
  refine ⟨?_, ?_, ?_⟩
  · intro s
    simp only [quotedTest, Bool.or_eq_true]
    exact or_congr (startsSQ_iff s) (endsDQ_iff s)
  · intro s h
    simp [quotedInner, h]
  · rfl

/-- Witness for C9 at the argument quoted foo space bar. -/
theorem quoted_arg_spec_witness :
    quotedTest ("'foo' bar".toList) = true
    ∧ quotedInner ("'foo' bar".toList) = some ("foo' ba".toList) :=
  ⟨rfl, quoted_arg_spec.2.1 ("'foo' bar".toList) rfl⟩

/-! Schema-extraction lemmas for the Variant A section render. -/

theorem schemaMatch_none_of_no_block (output : List Char)
    (h : ∀ a b c : List Char, output ≠ a ++ schemaOpenL ++ b ++ schemaCloseL ++ c) :
    schemaMatch output = none := by
  unfold schemaMatch
  cases hsf : splitFirst schemaOpenL output with
  | none => rfl
  | some pr =>
    cases hsl : splitLast schemaCloseL pr.2 with
    | none => simp [hsl]
    | some qr =>
      exfalso
      have h1 := splitFirst_eq schemaOpenL output pr.1 pr.2 (by rw [hsf])
      have h2 := splitLast_eq schemaCloseL pr.2 qr.1 qr.2 (by rw [hsl])
      apply h pr.1 qr.1 qr.2
      rw [h1, h2]
      simp

theorem no_block_of_short (s : List Char) (hlen : s.length < schemaOpenL.length) :
    ∀ a b c : List Char, s ≠ a ++ schemaOpenL ++ b ++ schemaCloseL ++ c := by
  intro a b c heq
  have hl : s.length
      = a.length + (schemaOpenL.length + (b.length + (schemaCloseL.length + c.length))) := by
    rw [heq]; simp [List.length_append]
  omega

/-- C4: a Variant A section render whose resolved variant output contains
no schema script block (no occurrence of the opening literal followed by
the closing literal) fails — the code dereferences the null schema — and
returns no wrapper markup. -/
theorem section_render_missing_schema_fails (parseJson : List Char → Except String SchemaInfo)
    (output : List Char)
    (h : ∀ a b c : List Char, output ≠ a ++ schemaOpenL ++ b ++ schemaCloseL ++ c) :
    section_render_A parseJson output = .error "TypeError: cannot read property name of null" := by
  have hnone : schemaMatch output = none := schemaMatch_none_of_no_block output h
  simp [section_render_A, hnone]

/-- Witness for C4 at a concrete schema-free variant output. -/
theorem section_render_missing_schema_fails_witness :
    section_render_A (fun _ => .ok ⟨[], none⟩) ("<p>x</p>".toList)
      = .error "TypeError: cannot read property name of null" :=
  section_render_missing_schema_fails (fun _ => .ok ⟨[], none⟩) ("<p>x</p>".toList)
    (no_block_of_short ("<p>x</p>".toList) (by decide))

/-! Object and stamping lemmas. -/

theorem getKey_setKey_self (k : String) (v : Json) (fs : List (String × Json)) :
    getKey k (setKey k v fs) = some v := by
  induction fs with
  | nil => simp [setKey, getKey]
  | cons p rest ih =>
    obtain ⟨k2, v2⟩ := p
    by_cases hk : k2 = k
    · simp [setKey, getKey, hk]
    · simp [setKey, getKey, hk, ih]

theorem getKey_setKey_other (k k2 : String) (v : Json) (fs : List (String × Json))
    (h : k2 ≠ k) : getKey k2 (setKey k v fs) = getKey k2 fs := by
  induction fs with
  | nil => simp [setKey, getKey, Ne.symm h]
  | cons p rest ih =>
    obtain ⟨k3, v3⟩ := p
    by_cases hk : k3 = k
    · subst hk
      simp [setKey, getKey, Ne.symm h]
    · by_cases hk2 : k3 = k2
      · simp [setKey, getKey, hk, hk2, h]
      · simp [setKey, getKey, hk, hk2, ih]

theorem stampBlocks_length (ids : Nat → String) (i : Nat) (bs : List Json) :
    (stampBlocks ids i bs).length = bs.length := by
  induction bs generalizing i with
  | nil => rfl
  | cons b rest ih => simp [stampBlocks, ih]

theorem stampBlocks_getElem (ids : Nat → String) (bs : List Json) (i j : Nat) :
    (stampBlocks ids i bs)[j]? = (bs[j]?).map (fun b => stampBlock (ids (i + j)) b) := by
  induction bs generalizing i j with
  | nil => simp [stampBlocks]
  | cons b rest ih =>
    cases j with
    | zero => simp [stampBlocks]
    | succ j2 =>
      simp only [stampBlocks, List.getElem?_cons_succ]
      rw [ih (i + 1) j2, show i + 1 + j2 = i + (j2 + 1) from by omega]

theorem blockIdOf_stampBlock (idStr : String) (b : Json) :
    blockIdOf (stampBlock idStr b) = some (.jstr idStr) := by
  cases b <;> simp [stampBlock, blockIdOf, getKey_setKey_self, getKey]

theorem blockFieldOf_stampBlock_obj (idStr k : String) (bf : List (String × Json))
    (hk : k ≠ "id") :
    blockFieldOf k (stampBlock idStr (.jobj bf)) = getKey k bf := by
  simp [stampBlock, blockFieldOf, getKey_setKey_other "id" k _ _ hk]

theorem blockFieldOf_stampBlock_eq (a1 a2 k : String) (b : Json) (hk : k ≠ "id") :
    blockFieldOf k (stampBlock a1 b) = blockFieldOf k (stampBlock a2 b) := by
  cases b <;>
    simp [stampBlock, blockFieldOf, getKey_setKey_other "id" k _ _ hk, getKey, Ne.symm hk]

/-- C6 counterexample: for a sidecar whose section object carries no blocks
field, parsing does not leave every non-id field unchanged — a blocks field
holding the empty array is materialized on the stamped section even though
the loaded JSON had none. -/
theorem section_parse_blocks_injected_counterexample :
    section_parse (fun _ => "x")
      (some (Json.jobj [("section", Json.jobj [("title", Json.jstr "T")])]))
      = .ok (Json.jobj [("section", Json.jobj [("title", Json.jstr "T"),
          ("id", Json.jstr "x"), ("blocks", Json.jarr [])])])
    ∧ getKey "blocks" [("title", Json.jstr "T")] = none :=
  ⟨rfl, rfl⟩

/-- C6 amended: a missing sidecar leaves the section data as the empty
object with no error; a loaded sidecar containing a section object gets an
id injected or overwritten on the section and on each blocks entry, the
blocks field itself is replaced (normalized to the empty array when absent),
and every field other than id and blocks — at top level, on the section
object, and on each blocks entry — passes through unchanged. -/
theorem section_parse_spec (ids : Nat → String) :
    section_parse ids none = .ok (Json.jobj [])
    ∧ (∀ fields sf, getKey "section" fields = some (Json.jobj sf) →
        getKey "blocks" sf = none →
        section_parse ids (some (Json.jobj fields))
          = .ok (Json.jobj (setKey "section"
              (Json.jobj (stampedSectionFields ids sf (Json.jarr []))) fields)))
    ∧ (∀ fields sf bs, getKey "section" fields = some (Json.jobj sf) →
        getKey "blocks" sf = some (Json.jarr bs) →
        section_parse ids (some (Json.jobj fields))
          = .ok (Json.jobj (setKey "section"
              (Json.jobj (stampedSectionFields ids sf
                (Json.jarr (stampBlocks ids 1 bs)))) fields)))
    ∧ (∀ sf bv k, k ≠ "id" → k ≠ "blocks" →
        getKey k (stampedSectionFields ids sf bv) = getKey k sf)
    ∧ (∀ sf bv, getKey "id" (stampedSectionFields ids sf bv) = some (Json.jstr (ids 0))
        ∧ getKey "blocks" (stampedSectionFields ids sf bv) = some bv)
    ∧ (∀ (v : Json) fields k, k ≠ "section" →
        getKey k (setKey "section" v fields) = getKey k fields)
    ∧ (∀ bf idStr k, k ≠ "id" →
        blockIdOf (stampBlock idStr (Json.jobj bf)) = some (Json.jstr idStr)
        ∧ blockFieldOf k (stampBlock idStr (Json.jobj bf)) = getKey k bf) := by
  refine ⟨rfl, ?_, ?_, ?_, ?_, ?_, ?_⟩
  · intro fields sf hsec hnb
    simp [section_parse, stampSection, sectionBlocksVal, hsec, hnb, stampedSectionFields]
  · intro fields sf bs hsec hbs
    simp [section_parse, stampSection, sectionBlocksVal, jsonTruthy, hsec, hbs,
      stampedSectionFields]
  · intro sf bv k hk1 hk2
    rw [stampedSectionFields, getKey_setKey_other "blocks" k _ _ hk2,
      getKey_setKey_other "id" k _ _ hk1]
  · intro sf bv
    constructor
    · rw [stampedSectionFields, getKey_setKey_other "blocks" "id" _ _ (by decide),
        getKey_setKey_self]
    · rw [stampedSectionFields, getKey_setKey_self]
  · intro v fields k hk
    exact getKey_setKey_other "section" k v fields hk
  · intro bf idStr k hk
    exact ⟨blockIdOf_stampBlock idStr (Json.jobj bf),
      blockFieldOf_stampBlock_obj idStr k bf hk⟩

/-- Witness for C6 on a concrete sidecar without blocks. -/
theorem section_parse_spec_witness :
    section_parse (fun _ => "w") none = .ok (Json.jobj [])
    ∧ section_parse (fun _ => "w")
        (some (Json.jobj [("section", Json.jobj [("title", Json.jstr "T")])]))
      = .ok (Json.jobj (setKey "section"
          (Json.jobj (stampedSectionFields (fun _ => "w")
            [("title", Json.jstr "T")] (Json.jarr [])))
          [("section", Json.jobj [("title", Json.jstr "T")])]))
    ∧ getKey "title" (stampedSectionFields (fun _ => "w")
        [("title", Json.jstr "T")] (Json.jarr []))
      = getKey "title" [("title", Json.jstr "T")]
    ∧ getKey "id" (stampedSectionFields (fun _ => "w")
        [("title", Json.jstr "T")] (Json.jarr []))
      = some (Json.jstr "w") := by
  have h := section_parse_spec (fun _ => "w")
  refine ⟨h.1, ?_, ?_, ?_⟩
  · exact h.2.1 [("section", Json.jobj [("title", Json.jstr "T")])]
      [("title", Json.jstr "T")] rfl rfl
  · exact h.2.2.2.1 [("title", Json.jstr "T")] (Json.jarr []) "title"
      (by decide) (by decide)
  · exact (h.2.2.2.2.1 [("title", Json.jstr "T")] (Json.jarr [])).1

/-- C1 counterexample: a parsed section tag occurrence with a sidecar
containing a section object, rendered twice in succession with the global
random stream threaded through, yields identical outputs and consumes no
randomness — the identifier carried into both renders is the one stamped at
parse time (r0), so the two render invocations do not produce different
section.id values. -/
theorem section_render_reuses_ids_counterexample :
    (section_render_A_rng cexParseJson cexRenderFile cexState cexIds).1
      = (section_render_A_rng cexParseJson cexRenderFile cexState
          ((section_render_A_rng cexParseJson cexRenderFile cexState cexIds).2)).1
    ∧ (section_render_A_rng cexParseJson cexRenderFile cexState cexIds).2 = cexIds
    ∧ sectionIdOf cexState.sectionData = some (Json.jstr "r0") :=
  ⟨rfl, rfl, rfl⟩

/-- C1 amended: the fresh identifiers are drawn by section.parse, which
runs anew on every full template render; two parses of the same sidecar
(containing a section object) from random streams with distinct draws stamp
different section.id values and different blocks entry ids at every index,
while every other metadata field — top level, section level, and on each
blocks entry — is identical between the two parses; the render routine
itself draws no randomness and reuses the parse-stamped metadata. -/
theorem section_parse_fresh_ids (ids1 ids2 : Nat → String)
    (fields sf : List (String × Json)) (bs : List Json)
    (hdiff : ∀ n, ids1 n ≠ ids2 n)
    (hsec : getKey "section" fields = some (Json.jobj sf))
    (hbs : getKey "blocks" sf = some (Json.jarr bs)) :
    section_parse ids1 (some (Json.jobj fields))
      = .ok (Json.jobj (setKey "section"
          (Json.jobj (stampedSectionFields ids1 sf
            (Json.jarr (stampBlocks ids1 1 bs)))) fields))
    ∧ getKey "id" (stampedSectionFields ids1 sf (Json.jarr (stampBlocks ids1 1 bs)))
      ≠ getKey "id" (stampedSectionFields ids2 sf (Json.jarr (stampBlocks ids2 1 bs)))
    ∧ (∀ j b, bs[j]? = some b →
        blockIdAt (stampBlocks ids1 1 bs) j ≠ blockIdAt (stampBlocks ids2 1 bs) j)
    ∧ (∀ k, k ≠ "id" → k ≠ "blocks" →
        getKey k (stampedSectionFields ids1 sf (Json.jarr (stampBlocks ids1 1 bs)))
          = getKey k (stampedSectionFields ids2 sf (Json.jarr (stampBlocks ids2 1 bs))))
    ∧ (∀ (v : Json) k, k ≠ "section" →
        getKey k (setKey "section" v fields) = getKey k fields)
    ∧ (∀ j b k, bs[j]? = some b → k ≠ "id" →
        blockFieldAt (stampBlocks ids1 1 bs) j k = blockFieldAt (stampBlocks ids2 1 bs) j k)
    ∧ (stampBlocks ids1 1 bs).length = (stampBlocks ids2 1 bs).length := by
  have hid : ∀ (ids : Nat → String) (bv : Json),
      getKey "id" (stampedSectionFields ids sf bv) = some (Json.jstr (ids 0)) := by
    intro ids bv
    rw [stampedSectionFields, getKey_setKey_other "blocks" "id" _ _ (by decide),
      getKey_setKey_self]
  refine ⟨?_, ?_, ?_, ?_, ?_, ?_, ?_⟩
  · simp [section_parse, stampSection, sectionBlocksVal, jsonTruthy, hsec, hbs,
      stampedSectionFields]
  · rw [hid ids1, hid ids2]
    intro hcontra
    injection hcontra with h1
    injection h1 with h2
    exact hdiff 0 h2
  · intro j b hjb
    rw [blockIdAt, blockIdAt, stampBlocks_getElem, stampBlocks_getElem, hjb]
    simp only [Option.map_some', blockIdOf_stampBlock]
    intro hcontra
    injection hcontra with h1
    injection h1 with h2
    exact hdiff (1 + j) h2
  · intro k hk1 hk2
    rw [stampedSectionFields, stampedSectionFields,
      getKey_setKey_other "blocks" k _ _ hk2, getKey_setKey_other "blocks" k _ _ hk2,
      getKey_setKey_other "id" k _ _ hk1, getKey_setKey_other "id" k _ _ hk1]
  · intro v k hk
    exact getKey_setKey_other "section" k v fields hk
  · intro j b k hjb hk
    rw [blockFieldAt, blockFieldAt, stampBlocks_getElem, stampBlocks_getElem, hjb]
    simp only [Option.map_some']
    exact blockFieldOf_stampBlock_eq (ids1 (1 + j)) (ids2 (1 + j)) k b hk
  · rw [stampBlocks_length, stampBlocks_length]

/-- Witness for C1 on a concrete sidecar and two distinct random streams. -/
theorem section_parse_fresh_ids_witness :
    section_parse (fun _ => "a")
      (some (Json.jobj [("section", Json.jobj [("type", Json.jstr "hero"),
        ("blocks", Json.jarr [Json.jobj []])])]))
      = .ok (Json.jobj (setKey "section"
          (Json.jobj (stampedSectionFields (fun _ => "a")
            [("type", Json.jstr "hero"), ("blocks", Json.jarr [Json.jobj []])]
            (Json.jarr (stampBlocks (fun _ => "a") 1 [Json.jobj []]))))
          [("section", Json.jobj [("type", Json.jstr "hero"),
            ("blocks", Json.jarr [Json.jobj []])])]))
    ∧ getKey "id" (stampedSectionFields (fun _ => "a")
        [("type", Json.jstr "hero"), ("blocks", Json.jarr [Json.jobj []])]
        (Json.jarr (stampBlocks (fun _ => "a") 1 [Json.jobj []])))
      ≠ getKey "id" (stampedSectionFields (fun _ => "b")
        [("type", Json.jstr "hero"), ("blocks", Json.jarr [Json.jobj []])]
        (Json.jarr (stampBlocks (fun _ => "b") 1 [Json.jobj []])))
    ∧ blockIdAt (stampBlocks (fun _ => "a") 1 [Json.jobj []]) 0
      ≠ blockIdAt (stampBlocks (fun _ => "b") 1 [Json.jobj []]) 0 := by
  have h := section_parse_fresh_ids (fun _ => "a") (fun _ => "b")
    [("section", Json.jobj [("type", Json.jstr "hero"),
      ("blocks", Json.jarr [Json.jobj []])])]
    [("type", Json.jstr "hero"), ("blocks", Json.jarr [Json.jobj []])]
    [Json.jobj []]
    (by intro n; show ("a" : String) ≠ "b"; decide) rfl rfl
  exact ⟨h.1, h.2.1, h.2.2.1 0 (Json.jobj []) rfl⟩

/-! Partial-reference extraction lemmas. -/

theorem takeWhile_ne_self (ch : Char) (l : List Char) (h : ∀ c ∈ l, c ≠ ch) :
    l.takeWhile (fun c => c ≠ ch) = l :=
  takeWhile_all _ l (fun c hc => by simp [h c hc])

theorem takeWhile_ne_append (ch : Char) (l t : List Char) (h : ∀ c ∈ l, c ≠ ch) :
    (l ++ ch :: t).takeWhile (fun c => c ≠ ch) = l := by
  rw [takeWhile_append_of_all _ l (ch :: t) (fun c hc => by simp [h c hc])]
  simp [List.takeWhile_cons]

theorem colonCut_of_no_colon (l : List Char) (h : ∀ c ∈ l, c ≠ ':') :
    colonCut l = l :=
  takeWhile_ne_self ':' l h

theorem colonCut_append (l t : List Char) (h : ∀ c ∈ l, c ≠ ':') :
    colonCut (l ++ ':' :: t) = l :=
  takeWhile_ne_append ':' l t h

theorem parenCut_of_no_paren (l : List Char) (h : ∀ c ∈ l, c ≠ '(') :
    parenCut l = l := by
  rw [parenCut, firstIdx_none_of '(' l h]

theorem parenCut_append (X Y : List Char) (hX : X ≠ []) (h : ∀ c ∈ X, c ≠ '(') :
    parenCut (X ++ '(' :: Y) = X := by
  rw [parenCut, firstIdx_append_left '(' X Y h]
  simp only [List.length_pos.mpr hX, if_true]
  exact List.take_left X ('(' :: Y)

theorem stripMarkersReplace_spec (body : List Char)
    (hsp : ∀ c ∈ body, c ≠ ' ')
    (hob : ∀ c ∈ body, c ≠ '\x7b')
    (hcb : ∀ c ∈ body, c ≠ '\x7d') :
    stripMarkersReplace ("\x7b\x7b> ".toList ++ (body ++ " \x7d\x7d".toList)) = body := by
  rw [stripMarkersReplace]
  have h1 : replaceFirst "\x7b\x7b> ".toList []
      ("\x7b\x7b> ".toList ++ (body ++ " \x7d\x7d".toList))
      = body ++ " \x7d\x7d".toList := by
    rw [replaceFirst, splitFirst_append_self]
    simp
  rw [h1]
  have hsplit : splitFirst " \x7d\x7d".toList (body ++ " \x7d\x7d".toList)
      = some (body, []) := by
    have hsk := splitFirst_skip ' ' "\x7d\x7d".toList body " \x7d\x7d".toList hsp
    have hpat : (' ' :: "\x7d\x7d".toList) = " \x7d\x7d".toList := rfl
    rw [hpat] at hsk
    rw [hsk]
    have hself : splitFirst " \x7d\x7d".toList " \x7d\x7d".toList = some ([], []) := by
      have := splitFirst_append_self " \x7d\x7d".toList []
      simpa using this
    rw [hself]
    simp
  have h2 : replaceFirst " \x7d\x7d".toList [] (body ++ " \x7d\x7d".toList) = body := by
    rw [replaceFirst, hsplit]
    simp
  rw [h2]
  have h3 : replaceFirst "\x7b\x7b>".toList [] body = body := by
    rw [replaceFirst, splitFirst_none_of_char '\x7b' "\x7b\x7b>".toList body (by decide) hob]
  rw [h3]
  rw [replaceFirst, splitFirst_none_of_char '\x7d' "\x7d\x7d".toList body (by decide) hcb]

theorem stripMarkersDrop_spec (body : List Char) (hb : body ≠ [])
    (hsp : ∀ c ∈ body, c ≠ ' ') :
    stripMarkersDrop ("\x7b\x7b> ".toList ++ (body ++ " \x7d\x7d".toList)) = body := by
  rw [stripMarkersDrop]
  have hs : ("\x7b\x7b> ".toList ++ (body ++ " \x7d\x7d".toList))
      = "\x7b\x7b>".toList ++ (' ' :: (body ++ " \x7d\x7d".toList)) := rfl
  rw [hs]
  have h1 : dropLead "\x7b\x7b>".toList
      ("\x7b\x7b>".toList ++ (' ' :: (body ++ " \x7d\x7d".toList)))
      = ' ' :: (body ++ " \x7d\x7d".toList) := by
    rw [dropLead, if_pos (hasLead_append_self _ _)]
    exact List.drop_left _ _
  rw [h1]
  have h2 : ((' ' :: (body ++ " \x7d\x7d".toList)).dropWhile (fun c => c = ' '))
      = body ++ " \x7d\x7d".toList := by
    obtain ⟨b0, brest, rfl⟩ : ∃ b0 brest, body = b0 :: brest := by
      cases body with
      | nil => exact absurd rfl hb
      | cons x xs => exact ⟨x, xs, rfl⟩
    have hb0 : b0 ≠ ' ' := hsp b0 (by simp)
    simp [List.dropWhile_cons, hb0]
  rw [h2]
  have h3 : (body ++ " \x7d\x7d".toList).reverse
      = "\x7d\x7d".toList ++ (' ' :: body.reverse) := by
    rw [List.reverse_append]
    rfl
  rw [h3]
  have h4 : dropLead "\x7d\x7d".toList ("\x7d\x7d".toList ++ (' ' :: body.reverse))
      = ' ' :: body.reverse := by
    rw [dropLead, if_pos (hasLead_append_self _ _)]
    exact List.drop_left _ _
  rw [h4]
  have h5 : ((' ' :: body.reverse).dropWhile (fun c => c = ' ')) = body.reverse := by
    have hstep : ((' ' :: body.reverse).dropWhile (fun c => c = ' '))
        = body.reverse.dropWhile (fun c => c = ' ') := by
      simp [List.dropWhile_cons]
    rw [hstep]
    exact dropWhile_eq_self_of_all _ body.reverse
      (fun c hc => by simp [hsp c (List.mem_reverse.mp hc)])
  rw [h5, List.reverse_reverse]

/-- C7: on every well-formed partial reference (include marker, name,
optional colon style modifier, optional parenthesized parameter list, end
marker, where the name is nonempty and the segments avoid the marker and
delimiter characters), the string-replacement extractor findPartial and the
spec-modelled pattern extractor findPartial_new both return the bare
reference name, so the two implementations agree on well-formed input. -/
theorem findPartial_agreement (nm : List Char) (md pr : Option (List Char))
    (hnm : nm ≠ [])
    (hnmc : ∀ c ∈ nm, plainChar c ∧ c ≠ ':')
    (hmd : ∀ m, md = some m → ∀ c ∈ m, plainChar c)
    (hpr : ∀ p, pr = some p → ∀ c ∈ p, plainChar c) :
    findPartial (mkPartialRef nm md pr) = nm
    ∧ findPartial_new (mkPartialRef nm md pr) = nm := by
  have hnm_sp : ∀ c ∈ nm, c ≠ ' ' := fun c hc => ((hnmc c hc).1).1
  have hnm_ob : ∀ c ∈ nm, c ≠ '\x7b' := fun c hc => ((hnmc c hc).1).2.1
  have hnm_cb : ∀ c ∈ nm, c ≠ '\x7d' := fun c hc => ((hnmc c hc).1).2.2.1
  have hnm_op : ∀ c ∈ nm, c ≠ '(' := fun c hc => ((hnmc c hc).1).2.2.2.1
  have hnm_co : ∀ c ∈ nm, c ≠ ':' := fun c hc => (hnmc c hc).2
  cases md with
  | none =>
    cases pr with
    | none =>
      have href : mkPartialRef nm none none
          = "\x7b\x7b> ".toList ++ (nm ++ " \x7d\x7d".toList) := by
        simp [mkPartialRef]
      constructor
      · rw [findPartial, href, stripMarkersReplace_spec nm hnm_sp hnm_ob hnm_cb,
          parenCut_of_no_paren nm hnm_op, colonCut_of_no_colon nm hnm_co]
      · rw [findPartial_new, href, stripMarkersDrop_spec nm hnm hnm_sp,
          takeWhile_ne_self '(' nm hnm_op, colonCut_of_no_colon nm hnm_co]
    | some p =>
      have hp := hpr p rfl
      have hY_sp : ∀ c ∈ nm ++ '(' :: (p ++ [')']), c ≠ ' ' := by
        intro c hc
        rcases List.mem_append.mp hc with h | h
        · exact hnm_sp c h
        · rcases List.mem_cons.mp h with rfl | h
          · decide
          · rcases List.mem_append.mp h with h | h
            · exact (hp c h).1
            · rcases List.mem_singleton.mp h with rfl
              decide
      have hY_ob : ∀ c ∈ nm ++ '(' :: (p ++ [')']), c ≠ '\x7b' := by
        intro c hc
        rcases List.mem_append.mp hc with h | h
        · exact hnm_ob c h
        · rcases List.mem_cons.mp h with rfl | h
          · decide
          · rcases List.mem_append.mp h with h | h
            · exact (hp c h).2.1
            · rcases List.mem_singleton.mp h with rfl
              decide
      have hY_cb : ∀ c ∈ nm ++ '(' :: (p ++ [')']), c ≠ '\x7d' := by
        intro c hc
        rcases List.mem_append.mp hc with h | h
        · exact hnm_cb c h
        · rcases List.mem_cons.mp h with rfl | h
          · decide
          · rcases List.mem_append.mp h with h | h
            · exact (hp c h).2.2.1
            · rcases List.mem_singleton.mp h with rfl
              decide
      have hY_ne : nm ++ '(' :: (p ++ [')']) ≠ [] := by
        intro h
        exact hnm (List.append_eq_nil.mp h).1
      have href : mkPartialRef nm none (some p)
          = "\x7b\x7b> ".toList ++ ((nm ++ '(' :: (p ++ [')'])) ++ " \x7d\x7d".toList) := by
        simp [mkPartialRef]
      constructor
      · rw [findPartial, href, stripMarkersReplace_spec _ hY_sp hY_ob hY_cb,
          parenCut_append nm (p ++ [')']) hnm hnm_op, colonCut_of_no_colon nm hnm_co]
      · rw [findPartial_new, href, stripMarkersDrop_spec _ hY_ne hY_sp,
          takeWhile_ne_append '(' nm (p ++ [')']) hnm_op, colonCut_of_no_colon nm hnm_co]
  | some m =>
    have hm := hmd m rfl
    have hX_sp : ∀ c ∈ nm ++ ':' :: m, c ≠ ' ' := by
      intro c hc
      rcases List.mem_append.mp hc with h | h
      · exact hnm_sp c h
      · rcases List.mem_cons.mp h with rfl | h
        · decide
        · exact (hm c h).1
    have hX_ob : ∀ c ∈ nm ++ ':' :: m, c ≠ '\x7b' := by
      intro c hc
      rcases List.mem_append.mp hc with h | h
      · exact hnm_ob c h
      · rcases List.mem_cons.mp h with rfl | h
        · decide
        · exact (hm c h).2.1
    have hX_cb : ∀ c ∈ nm ++ ':' :: m, c ≠ '\x7d' := by
      intro c hc
      rcases List.mem_append.mp hc with h | h
      · exact hnm_cb c h
      · rcases List.mem_cons.mp h with rfl | h
        · decide
        · exact (hm c h).2.2.1
    have hX_op : ∀ c ∈ nm ++ ':' :: m, c ≠ '(' := by
      intro c hc
      rcases List.mem_append.mp hc with h | h
      · exact hnm_op c h
      · rcases List.mem_cons.mp h with rfl | h
        · decide
        · exact (hm c h).2.2.2.1
    have hX_ne : nm ++ ':' :: m ≠ [] := by
      intro h
      exact hnm (List.append_eq_nil.mp h).1
    cases pr with
    | none =>
      have href : mkPartialRef nm (some m) none
          = "\x7b\x7b> ".toList ++ ((nm ++ ':' :: m) ++ " \x7d\x7d".toList) := by
        simp [mkPartialRef]
      constructor
      · rw [findPartial, href, stripMarkersReplace_spec _ hX_sp hX_ob hX_cb,
          parenCut_of_no_paren _ hX_op, colonCut_append nm m hnm_co]
      · rw [findPartial_new, href, stripMarkersDrop_spec _ hX_ne hX_sp,
          takeWhile_ne_self '(' _ hX_op, colonCut_append nm m hnm_co]
    | some p =>
      have hp := hpr p rfl
      have hB_sp : ∀ c ∈ (nm ++ ':' :: m) ++ '(' :: (p ++ [')']), c ≠ ' ' := by
        intro c hc
        rcases List.mem_append.mp hc with h | h
        · exact hX_sp c h
        · rcases List.mem_cons.mp h with rfl | h
          · decide
          · rcases List.mem_append.mp h with h | h
            · exact (hp c h).1
            · rcases List.mem_singleton.mp h with rfl
              decide
      have hB_ob : ∀ c ∈ (nm ++ ':' :: m) ++ '(' :: (p ++ [')']), c ≠ '\x7b' := by
        intro c hc
        rcases List.mem_append.mp hc with h | h
        · exact hX_ob c h
        · rcases List.mem_cons.mp h with rfl | h
          · decide
          · rcases List.mem_append.mp h with h | h
            · exact (hp c h).2.1
            · rcases List.mem_singleton.mp h with rfl
              decide
      have hB_cb : ∀ c ∈ (nm ++ ':' :: m) ++ '(' :: (p ++ [')']), c ≠ '\x7d' := by
        intro c hc
        rcases List.mem_append.mp hc with h | h
        · exact hX_cb c h
        · rcases List.mem_cons.mp h with rfl | h
          · decide
          · rcases List.mem_append.mp h with h | h
            · exact (hp c h).2.2.1
            · rcases List.mem_singleton.mp h with rfl
              decide
      have hB_ne : (nm ++ ':' :: m) ++ '(' :: (p ++ [')']) ≠ [] := by
        intro h
        exact hX_ne (List.append_eq_nil.mp h).1
      have href : mkPartialRef nm (some m) (some p)
          = "\x7b\x7b> ".toList
            ++ (((nm ++ ':' :: m) ++ '(' :: (p ++ [')'])) ++ " \x7d\x7d".toList) := by
        simp [mkPartialRef]
      constructor
      · rw [findPartial, href, stripMarkersReplace_spec _ hB_sp hB_ob hB_cb,
          parenCut_append _ (p ++ [')']) hX_ne hX_op, colonCut_append nm m hnm_co]
      · rw [findPartial_new, href, stripMarkersDrop_spec _ hB_ne hB_sp,
          takeWhile_ne_append '(' _ (p ++ [')']) hX_op, colonCut_append nm m hnm_co]

/-- Witness for C7 on a concrete reference with both a style modifier and a
parameter list. -/
theorem findPartial_agreement_witness :
    findPartial (mkPartialRef "molecules-button".toList
      (some "hover".toList) (some "label:1".toList)) = "molecules-button".toList
    ∧ findPartial_new (mkPartialRef "molecules-button".toList
      (some "hover".toList) (some "label:1".toList)) = "molecules-button".toList := by
  have h := findPartial_agreement "molecules-button".toList
    (some "hover".toList) (some "label:1".toList)
    (by decide) (by decide)
    (by intro m hm; injection hm with hm2; rw [← hm2]; decide)
    (by intro p hp; injection hp with hp2; rw [← hp2]; decide)
  exact h

end LiquidEngine
